import Mathlib

/-!
Verification of the Task Automation Bot pipeline against its source.

Shallow embedding conventions:
* a Python `str` is modelled as a `List Char` (`Str`), matching Python's
  view of a string as a sequence of code points;
* a `pathlib.Path` is modelled as its list of components (`PyPath`);
* the filesystem seen by the rename/sort stages is an existence predicate
  `FS : PyPath → Bool`; `Path.rename` / `shutil.move` of an existing source
  succeed and update it (POSIX rename overwrites an existing destination);
* the stat used by the report stage is a partial size map
  `PyPath → Option Nat`; `none` models `FileNotFoundError`;
* the network is an oracle `Str → Option (List Nat)` giving the body a
  successful GET of a URL would return, `none` covering every failure the
  downloader's `try` catches (network error, timeout, bad status);
* Python exceptions are modelled with `Except PyErr`.
-/

/-- Model of a Python `str`: its list of code points. -/
abbrev Str := List Char

/-- Model of Python `str.lower`, character by character (ASCII case range,
which covers every key of the default extension table). -/
def pyLower (s : Str) : Str := s.map Char.toLower

/-- Result of splitting a string at its LAST dot: `some (a, b)` with
`name = a ++ '.' :: b` and no dot in `b`, or `none` when the string has no
dot.  This locates the character `str.rfind('.')` finds. -/
def splitLastDot : Str → Option (Str × Str)
  | [] => none
  | c :: rest =>
    match splitLastDot rest with
    | some (a, b) => some (c :: a, b)
    | none => if c = '.' then some ([], rest) else none

/-- Model of `pathlib.PurePath.suffix` on a plain file name: the substring
from the last dot, but only when that dot is neither the first nor the last
character (cpython checks `0 < i < len(name) - 1`); otherwise empty. -/
def pySuffix (name : Str) : Str :=
  match splitLastDot name with
  | some (a, b) => if a ≠ [] ∧ b ≠ [] then '.' :: b else []
  | none => []

/-- Model of `pathlib.PurePath.stem` on a plain file name: the part before
the suffix, or the whole name when the suffix is empty. -/
def pyStem (name : Str) : Str :=
  match splitLastDot name with
  | some (a, b) => if a ≠ [] ∧ b ≠ [] then a else name
  | none => name

/-- Embedding of `FileManager._build_new_name` from
`src/automation_bot/file_manager.py`:
`return f"{prefix}{stem}{suffix}{ext}"`. -/
def buildNewName (filename pre suf : Str) : Str :=
  pre ++ pyStem filename ++ suf ++ pySuffix filename

/-- Model of a `pathlib.Path`: its list of components. -/
abbrev PyPath := List Str

/-- Model of `Path.name`: the last component (empty for the empty path). -/
def pathName (p : PyPath) : Str := p.getLast?.getD []

/-- Model of `Path.with_name`: replace the last component. -/
def withName (p : PyPath) (n : Str) : PyPath := p.dropLast ++ [n]

/-- Model of `Path.parent.name`: the next-to-last component. -/
def parentName (p : PyPath) : Str := p.dropLast.getLast?.getD []

/-- Filesystem model for the rename/sort stages: which paths exist. -/
abbrev FS := PyPath → Bool

/-- Effect of `Path.rename` / `shutil.move` on the existence map: the
destination now exists, the source no longer does (overwriting any previous
file at the destination, as POSIX rename does). -/
def fsRename (fs : FS) (src dst : PyPath) : FS :=
  fun q => if q = dst then true else if q = src then false else fs q

/-- Association-list model of a Python `dict` together with `dict.get`
(literal dicts in the source have pairwise distinct keys). -/
def alookup {α : Type} : List (Str × α) → Str → Option α
  | [], _ => none
  | (k, v) :: t, key => if k = key then some v else alookup t key

/-- Embedding of `FileSortConfig` from `src/automation_bot/file_manager.py`. -/
structure FileSortConfig where
  extension_map : List (Str × Str)
  other_folder : Str

/-- Embedding of the default `FileSortConfig` field values: the fourteen
extension map entries and the fallback folder. -/
def FileSortConfig.default : FileSortConfig :=
  { extension_map :=
      [(".pdf".toList, "documents".toList),
       (".doc".toList, "documents".toList),
       (".docx".toList, "documents".toList),
       (".txt".toList, "documents".toList),
       (".csv".toList, "data".toList),
       (".xlsx".toList, "data".toList),
       (".xls".toList, "data".toList),
       (".jpg".toList, "images".toList),
       (".jpeg".toList, "images".toList),
       (".png".toList, "images".toList),
       (".gif".toList, "images".toList),
       (".mp4".toList, "videos".toList),
       (".mkv".toList, "videos".toList),
       (".mp3".toList, "audio".toList)],
    other_folder := "others".toList }

/-- Embedding of the classification step of
`FileManager.sort_files_by_extension`:
`ext = path.suffix.lower(); self.sort_config.extension_map.get(ext, self.sort_config.other_folder)`.
The argument is the raw `path.suffix`; lowering happens here as in the
source. -/
def classifyExt (cfg : FileSortConfig) (ext : Str) : Str :=
  (alookup cfg.extension_map (pyLower ext)).getD cfg.other_folder

/-- Per-item result of a successful rename:
`path.with_name(self._build_new_name(path.name, prefix, suffix))`. -/
def renameDest (pre suf : Str) (p : PyPath) : PyPath :=
  withName p (buildNewName (pathName p) pre suf)

/-- Embedding of `FileManager.rename_files`: iterate in order, skip paths
that do not exist (and any per-item exception, which the model folds into
the same skip), rename the rest and collect the new paths in order. -/
def renameFiles (pre suf : Str) : FS → List PyPath → FS × List PyPath
  | fs, [] => (fs, [])
  | fs, p :: rest =>
    if fs p then
      let pr := renameFiles pre suf (fsRename fs p (renameDest pre suf p)) rest
      (pr.1, renameDest pre suf p :: pr.2)
    else
      renameFiles pre suf fs rest

/-- Per-item result of a successful sort/move:
`self.base_dir / target_folder / path.name`. -/
def sortDest (cfg : FileSortConfig) (base : PyPath) (p : PyPath) : PyPath :=
  base ++ [classifyExt cfg (pySuffix (pathName p)), pathName p]

/-- Embedding of `FileManager.sort_files_by_extension`: iterate in order,
skip missing paths, move the rest into their category folder (directory
creation is idempotent and not tracked) and collect the new paths. -/
def sortFilesByExtension (cfg : FileSortConfig) (base : PyPath) :
    FS → List PyPath → FS × List PyPath
  | fs, [] => (fs, [])
  | fs, p :: rest =>
    if fs p then
      let pr := sortFilesByExtension cfg base (fsRename fs p (sortDest cfg base p)) rest
      (pr.1, sortDest cfg base p :: pr.2)
    else
      sortFilesByExtension cfg base fs rest

/-- Filename chosen by `FileDownloader._download_single`:
`Path(urlparse(url).path).name or "downloaded_file"`.  The extraction of the
path component's basename from the URL is abstracted as `rawN` (no claim
depends on its details); the `or`-fallback for an empty basename is from the
source. -/
def urlFilename (rawN : Str → Str) (u : Str) : Str :=
  if rawN u = [] then "downloaded_file".toList else rawN u

/-- Destination of a successful download: `self.download_dir / filename`. -/
def downloadDest (rawN : Str → Str) (dir : PyPath) (u : Str) : PyPath :=
  dir ++ [urlFilename rawN u]

/-- Embedding of `FileDownloader._download_single` under the network oracle
`net`: `none` covers every exception the caller's `try` catches (request
failure, timeout, `raise_for_status`, write error). -/
def downloadSingle (rawN : Str → Str) (net : Str → Option (List Nat))
    (dir : PyPath) (u : Str) : Option PyPath :=
  match net u with
  | some _ => some (downloadDest rawN dir u)
  | none => none

/-- Embedding of `FileDownloader.download_files`: iterate in order, append
each successful destination, skip failures. -/
def downloadFiles (rawN : Str → Str) (net : Str → Option (List Nat))
    (dir : PyPath) : List Str → List PyPath
  | [] => []
  | u :: rest =>
    match downloadSingle rawN net dir u with
    | some p => p :: downloadFiles rawN net dir rest
    | none => downloadFiles rawN net dir rest

/-- Header row written by `ReportGenerator.generate_file_report`. -/
def headerRow : List Str :=
  ["file_name".toList, "extension".toList, "size_bytes".toList, "folder".toList]

/-- Decimal rendering of a size, as Python's `csv` module stringifies the
integer cell. -/
def natStr (n : Nat) : Str := (Nat.repr n).data

/-- Embedding of the property `FileInfo.extension`:
`self.path.suffix.lower()`. -/
def fileExt (p : PyPath) : Str := pyLower (pySuffix (pathName p))

/-- Embedding of the property `FileInfo.size_bytes`: `self.path.stat().st_size`
with `except FileNotFoundError: return 0`.  The stat map yields `none`
exactly when the file is missing at measurement time. -/
def sizeBytes (stat : PyPath → Option Nat) (p : PyPath) : Nat :=
  (stat p).getD 0

/-- Row written for one file by `ReportGenerator.generate_file_report`:
`[info.name, info.extension, info.size_bytes, info.folder]`. -/
def fileRow (stat : PyPath → Option Nat) (p : PyPath) : List Str :=
  [pathName p, fileExt p, natStr (sizeBytes stat p), parentName p]

/-- Embedding of `ReportGenerator.generate_file_report`: the rows written to
the CSV, one header row then one row per input file in order. -/
def generateFileReport (stat : PyPath → Option Nat) (files : List PyPath) :
    List (List Str) :=
  headerRow :: files.map (fileRow stat)

/-- Python exception classes raised by the modelled code. -/
inductive PyErr where
  | attributeError
  | typeError
  | valueError
  | smtpError
deriving DecidableEq

/-- Model of a parsed JSON value as `json.load` produces it. -/
inductive Json where
  | jnull
  | jbool (b : Bool)
  | jnum (n : Int)
  | jstr (s : Str)
  | jarr (xs : List Json)
  | jobj (kvs : List (Str × Json))

/-- Outcome of locating and parsing `config/settings.json`:
the file is missing, it is not valid JSON, or it parsed to a value. -/
inductive ConfigSource where
  | missing
  | unparseable
  | parsed (data : Json)

/-- Model of Python's `data.get(key, default)`: only a `dict` has `get`;
any other receiver raises `AttributeError`. -/
def jsonGet (j : Json) (k : Str) (d : Json) : Except PyErr Json :=
  match j with
  | .jobj kvs => .ok ((alookup kvs k).getD d)
  | _ => .error .attributeError

/-- Model of `BASE_DIR / sub` for the config module's default locations. -/
def joinPath (a b : Str) : Str := a ++ ('/' :: b)

/-- Embedding of `Path(data.get(key, default_path))` from `load_config`:
an absent key keeps the default path, a string value is converted by
`Path(...)`, and any other value makes `Path(...)` raise `TypeError`. -/
def getPathD (data : Json) (k : Str) (dflt : Str) : Except PyErr Str := do
  let v ← jsonGet data k (Json.jstr dflt)
  match v with
  | .jstr s => Except.ok s
  | _ => Except.error PyErr.typeError

/-- Embedding of the `EmailConfig` dataclass as `load_config` actually fills
it: each field stores the raw JSON value taken from the document (Python
performs no type validation on these). -/
structure EmailRaw where
  enabled : Json
  smtp_server : Json
  smtp_port : Json
  use_tls : Json
  username : Json
  password : Json
  from_address : Json
  to_addresses : Json

/-- Default `EmailConfig()` field values from `src/automation_bot/config.py`. -/
def EmailRaw.default : EmailRaw :=
  { enabled := .jbool false,
    smtp_server := .jstr "smtp.example.com".toList,
    smtp_port := .jnum 587,
    use_tls := .jbool true,
    username := .jstr [],
    password := .jstr [],
    from_address := .jstr [],
    to_addresses := .jarr [] }

/-- Embedding of the `Config` dataclass as `load_config` fills it: directory
fields pass through `Path(...)` (modelled as strings), the remaining fields
store the raw JSON values.  The source fields `rename_prefix` and
`rename_suffix` are named `renamePre` and `renameSuf` here. -/
structure Config where
  download_urls : Json
  download_dir : Str
  working_dir : Str
  reports_dir : Str
  logs_dir : Str
  renamePre : Json
  renameSuf : Json
  sort_by_extension : Json
  email : EmailRaw

/-- Embedding of `Config.default()` from `src/automation_bot/config.py`,
parameterised by the value of `BASE_DIR`. -/
def Config.default (b : Str) : Config :=
  { download_urls := .jarr [],
    download_dir := joinPath b "downloads".toList,
    working_dir := joinPath b "downloads".toList,
    reports_dir := joinPath b "reports".toList,
    logs_dir := joinPath b "logs".toList,
    renamePre := .jstr [],
    renameSuf := .jstr [],
    sort_by_extension := .jbool true,
    email := EmailRaw.default }

/-- Embedding of the body of `load_config` from
`src/automation_bot/config.py` after a successful `json.load`,
parameterised by `BASE_DIR`.  Binds follow the evaluation order of the
source: the email block first, then the `Config(...)` arguments left to
right. -/
def loadConfigData (b : Str) (data : Json) : Except PyErr Config := do
    let emailData ← jsonGet data "email".toList (Json.jobj [])
    let enabled ← jsonGet emailData "enabled".toList (Json.jbool false)
    let smtpServer ← jsonGet emailData "smtp_server".toList
      (Json.jstr "smtp.example.com".toList)
    let smtpPort ← jsonGet emailData "smtp_port".toList (Json.jnum 587)
    let useTls ← jsonGet emailData "use_tls".toList (Json.jbool true)
    let username ← jsonGet emailData "username".toList (Json.jstr [])
    let password ← jsonGet emailData "password".toList (Json.jstr [])
    let fromAddress ← jsonGet emailData "from_address".toList (Json.jstr [])
    let toAddresses ← jsonGet emailData "to_addresses".toList (Json.jarr [])
    let downloadUrls ← jsonGet data "download_urls".toList (Json.jarr [])
    let downloadDir ← getPathD data "download_dir".toList (joinPath b "downloads".toList)
    let workingDir ← getPathD data "working_dir".toList (joinPath b "downloads".toList)
    let reportsDir ← getPathD data "reports_dir".toList (joinPath b "reports".toList)
    let logsDir ← getPathD data "logs_dir".toList (joinPath b "logs".toList)
    let renamePreV ← jsonGet data "rename_prefix".toList (Json.jstr [])
    let renameSufV ← jsonGet data "rename_suffix".toList (Json.jstr [])
    let sortByExt ← jsonGet data "sort_by_extension".toList (Json.jbool true)
    Except.ok
      { download_urls := downloadUrls,
        download_dir := downloadDir,
        working_dir := workingDir,
        reports_dir := reportsDir,
        logs_dir := logsDir,
        renamePre := renamePreV,
        renameSuf := renameSufV,
        sort_by_extension := sortByExt,
        email :=
          { enabled := enabled,
            smtp_server := smtpServer,
            smtp_port := smtpPort,
            use_tls := useTls,
            username := username,
            password := password,
            from_address := fromAddress,
            to_addresses := toAddresses } }

/-- Dispatch of `load_config` on the outcome of reading the settings file:
a missing file or a JSON parse failure falls back to the defaults, a parsed
document is merged by `loadConfigData`. -/
def loadConfig (b : Str) : ConfigSource → Except PyErr Config
  | .missing => .ok (Config.default b)
  | .unparseable => .ok (Config.default b)
  | .parsed data => loadConfigData b data

/-- Merge of an optional path-typed document value with its default, used to
state (not to implement) the per-key merge `load_config` performs. -/
def pathMerge (o : Option Json) (dflt : Str) : Str :=
  match o with
  | some (.jstr s) => s
  | _ => dflt

/-- Merge of the optional `email` section with the `EmailConfig` defaults,
used to state the per-key merge `load_config` performs. -/
def emailMerge (o : Option Json) : EmailRaw :=
  match o with
  | some (.jobj ekvs) =>
    { enabled := (alookup ekvs "enabled".toList).getD (.jbool false),
      smtp_server := (alookup ekvs "smtp_server".toList).getD
        (.jstr "smtp.example.com".toList),
      smtp_port := (alookup ekvs "smtp_port".toList).getD (.jnum 587),
      use_tls := (alookup ekvs "use_tls".toList).getD (.jbool true),
      username := (alookup ekvs "username".toList).getD (.jstr []),
      password := (alookup ekvs "password".toList).getD (.jstr []),
      from_address := (alookup ekvs "from_address".toList).getD (.jstr []),
      to_addresses := (alookup ekvs "to_addresses".toList).getD (.jarr []) }
  | _ => EmailRaw.default

/-- Configuration the spec's per-key merge description produces from a JSON
object document: every present key contributes its document value, every
absent key its built-in default.  Stated from the spec for comparison with
`loadConfig`. -/
def specMergedConfig (b : Str) (kvs : List (Str × Json)) : Config :=
  { download_urls := (alookup kvs "download_urls".toList).getD (.jarr []),
    download_dir := pathMerge (alookup kvs "download_dir".toList)
      (joinPath b "downloads".toList),
    working_dir := pathMerge (alookup kvs "working_dir".toList)
      (joinPath b "downloads".toList),
    reports_dir := pathMerge (alookup kvs "reports_dir".toList)
      (joinPath b "reports".toList),
    logs_dir := pathMerge (alookup kvs "logs_dir".toList)
      (joinPath b "logs".toList),
    renamePre := (alookup kvs "rename_prefix".toList).getD (.jstr []),
    renameSuf := (alookup kvs "rename_suffix".toList).getD (.jstr []),
    sort_by_extension := (alookup kvs "sort_by_extension".toList).getD (.jbool true),
    email := emailMerge (alookup kvs "email".toList) }
/-- Embedding of the `EmailConfig` dataclass with its declared field types,
as the notifier consumes it. -/
structure EmailConfig where
  enabled : Bool
  smtp_server : Str
  smtp_port : Nat
  use_tls : Bool
  username : Str
  password : Str
  from_address : Str
  to_addresses : List Str

/-- Composed email message: the headers and body `send_notification` sets,
plus the name of the attached file when one was attached. -/
structure EmailMsg where
  subject : Str
  fromAddr : Str
  toHdr : Str
  body : Str
  attachmentName : Option Str
deriving DecidableEq

/-- Model of assigning a header on an `email.message.EmailMessage`:
`email.policy.default.header_store_parse` raises
`ValueError("Header values may not contain linefeed or carriage return characters")`
when the value contains LF or CR. -/
def setHeader (s : Str) : Except PyErr Str :=
  if '\n' ∈ s ∨ '\r' ∈ s then .error .valueError else .ok s

/-- Model of `", ".join(addresses)`. -/
def joinComma (xs : List Str) : Str := List.intercalate (", ".toList) xs

/-- Message-composition phase of `EmailNotifier.send_notification`: set the
Subject, From, and To headers in source order, then the body.  It runs
BEFORE the `try` block in the source, so its exceptions are not caught
there. -/
def composeMessage (subject body fromA : Str) (tos : List Str) :
    Except PyErr EmailMsg := do
  let subj ← setHeader subject
  let frm ← setHeader fromA
  let toH ← setHeader (joinComma tos)
  Except.ok { subject := subj, fromAddr := frm, toHdr := toH, body := body,
              attachmentName := none }

/-- Network actions `send_notification` can perform, in the order they are
recorded in the trace. -/
inductive NetAction where
  | connect (server : Str) (port : Nat)
  | starttls
  | login (user : Str)
  | sendMessage
deriving DecidableEq

/-- Transport oracle: what each SMTP operation would do if attempted. -/
structure SmtpWorld where
  connect : Str → Nat → Except PyErr Unit
  starttls : Except PyErr Unit
  login : Str → Str → Except PyErr Unit
  send : EmailMsg → Except PyErr Unit

/-- Final `server.send_message(msg)` step of the SMTP session, with the
trace of network actions performed so far. -/
def smtpSend (w : SmtpWorld) (m : EmailMsg) (tr : List NetAction) :
    Except PyErr Unit × List NetAction :=
  match w.send m with
  | .error e => (.error e, tr ++ [NetAction.sendMessage])
  | .ok _ => (.ok (), tr ++ [NetAction.sendMessage])

/-- Optional `server.login(...)` step: attempted only when both username and
password are non-empty (`if self.config.username and self.config.password`),
then the send step. -/
def smtpLoginSend (cfg : EmailConfig) (w : SmtpWorld) (m : EmailMsg)
    (tr : List NetAction) : Except PyErr Unit × List NetAction :=
  if cfg.username ≠ [] ∧ cfg.password ≠ [] then
    match w.login cfg.username cfg.password with
    | .error e => (.error e, tr ++ [NetAction.login cfg.username])
    | .ok _ => smtpSend w m (tr ++ [NetAction.login cfg.username])
  else
    smtpSend w m tr

/-- SMTP session of `send_notification`: connect, optionally STARTTLS,
optionally log in, send.  Returns the outcome and the trace of network
actions performed (an error stops the session where it occurred). -/
def smtpSession (cfg : EmailConfig) (w : SmtpWorld) (m : EmailMsg) :
    Except PyErr Unit × List NetAction :=
  match w.connect cfg.smtp_server cfg.smtp_port with
  | .error e => (.error e, [NetAction.connect cfg.smtp_server cfg.smtp_port])
  | .ok _ =>
    if cfg.use_tls then
      match w.starttls with
      | .error e => (.error e,
          [NetAction.connect cfg.smtp_server cfg.smtp_port, NetAction.starttls])
      | .ok _ => smtpLoginSend cfg w m
          [NetAction.connect cfg.smtp_server cfg.smtp_port, NetAction.starttls]
    else
      smtpLoginSend cfg w m [NetAction.connect cfg.smtp_server cfg.smtp_port]

/-- Embedding of `EmailNotifier.send_notification` from
`src/automation_bot/notifier.py`.  Returns the call's outcome (`.error e`
models an exception propagating to the caller) and the trace of network
actions performed.  Mirrors the source: the disabled / no-recipients guards
return before doing anything; message composition and attachment handling
run outside the `try`; the `try`/`except` around the SMTP session swallows
every exception raised there. -/
def send_notification (cfg : EmailConfig) (subject body : Str)
    (attachment : Option PyPath) (fs : PyPath → Bool) (w : SmtpWorld) :
    Except PyErr Unit × List NetAction :=
  if cfg.enabled = false then (.ok (), [])
  else if cfg.to_addresses = [] then (.ok (), [])
  else
    match composeMessage subject body cfg.from_address cfg.to_addresses with
    | .error e => (.error e, [])
    | .ok m =>
      let m2 :=
        match attachment with
        | some a => if fs a then { m with attachmentName := some (pathName a) } else m
        | none => m
      (.ok (), (smtpSession cfg w m2).2)
/-- Network oracle for the concrete witnesses: the URL "bad" fails, every
other URL succeeds with an empty body. -/
def netDemo : Str → Option (List Nat) :=
  fun u => if u = "bad".toList then none else some []

/-- URL basename extractor for the concrete witnesses. -/
def rawDemo : Str → Str := fun _ => "f.csv".toList

/-- Filesystem with no files, for the concrete witnesses. -/
def fsNone : FS := fun _ => false

/-- Filesystem where every path exists, for the concrete witnesses. -/
def fsAll : FS := fun _ => true

/-- Stat map where no file can be measured, for the concrete witnesses. -/
def statNone : PyPath → Option Nat := fun _ => none

/-- Enabled email settings with one recipient, for the concrete witnesses. -/
def cfgOn : EmailConfig :=
  { enabled := true,
    smtp_server := "smtp.example.com".toList,
    smtp_port := 587,
    use_tls := true,
    username := "u".toList,
    password := "p".toList,
    from_address := "bot@example.com".toList,
    to_addresses := ["ops@example.com".toList] }

/-- Disabled email settings, for the concrete witnesses. -/
def cfgOff : EmailConfig := { cfgOn with enabled := false }

/-- Transport oracle where every SMTP operation succeeds. -/
def wOk : SmtpWorld :=
  { connect := fun _ _ => .ok (),
    starttls := .ok (),
    login := fun _ _ => .ok (),
    send := fun _ => .ok () }

/-- Transport oracle where every SMTP operation fails. -/
def wFail : SmtpWorld :=
  { connect := fun _ _ => .error .smtpError,
    starttls := .error .smtpError,
    login := fun _ _ => .error .smtpError,
    send := fun _ => .error .smtpError }

/-- Partial configuration document for the concrete merge witness. -/
def demoKvs : List (Str × Json) :=
  [("rename_prefix".toList, .jstr "x_".toList),
   ("download_dir".toList, .jstr "/data".toList),
   ("email".toList, .jobj [("enabled".toList, .jbool true)])]

/-- Stem/extension split as the spec's words describe it: "splitting the
filename at its last dot (a filename with no extension yields an empty
extension and the whole name as stem)".  Stated from the spec for comparison
with `pyStem`/`pySuffix`. -/
def specSplitExt (name : Str) : Str × Str :=
  match splitLastDot name with
  | some (a, b) => (a, '.' :: b)
  | none => (name, [])

/-- New-name formula as the spec's words describe it:
`prefix + stem + suffix + extension` over `specSplitExt`.  Stated from the
spec for comparison with `buildNewName`. -/
def specBuildNewName (filename pre suf : Str) : Str :=
  pre ++ (specSplitExt filename).1 ++ suf ++ (specSplitExt filename).2

theorem splitLastDot_none {n : Str} (h : splitLastDot n = none) : '.' ∉ n := by
  induction n with
  | nil => simp
  | cons c rest ih =>
    rw [splitLastDot] at h
    cases hs : splitLastDot rest with
    | some ab => rw [hs] at h; cases h
    | none =>
      rw [hs] at h
      by_cases hc : c = '.'
      · simp [hc] at h
      · simp only [if_neg hc] at h
        intro hm
        rcases List.mem_cons.mp hm with h1 | h1
        · exact hc h1.symm
        · exact ih hs h1

theorem splitLastDot_some :
    ∀ {n a b : Str}, splitLastDot n = some (a, b) → n = a ++ '.' :: b ∧ '.' ∉ b := by
  intro n
  induction n with
  | nil => intro a b h; cases h
  | cons c rest ih =>
    intro a b h
    rw [splitLastDot] at h
    cases hs : splitLastDot rest with
    | some ab =>
      obtain ⟨a', b'⟩ := ab
      rw [hs] at h
      injection h with h
      obtain ⟨h1, h2⟩ := Prod.mk.injEq .. ▸ h
      obtain ⟨he, hnb⟩ := ih hs
      subst h1; subst h2
      exact ⟨by rw [he]; rfl, hnb⟩
    | none =>
      rw [hs] at h
      by_cases hc : c = '.'
      · rw [if_pos hc] at h
        injection h with h
        obtain ⟨h1, h2⟩ := Prod.mk.injEq .. ▸ h
        subst h1; subst h2; subst hc
        exact ⟨rfl, splitLastDot_none hs⟩
      · rw [if_neg hc] at h; cases h

theorem lastDotUnique :
    ∀ (a₁ b₁ a₂ b₂ : Str), a₁ ++ '.' :: b₁ = a₂ ++ '.' :: b₂ →
      '.' ∉ b₁ → '.' ∉ b₂ → a₁ = a₂ ∧ b₁ = b₂ := by
  intro a₁
  induction a₁ with
  | nil =>
    intro b₁ a₂ b₂ he h1 h2
    cases a₂ with
    | nil =>
      simp only [List.nil_append] at he
      exact ⟨rfl, (List.cons.injEq .. ▸ he).2⟩
    | cons d t₂ =>
      simp only [List.nil_append, List.cons_append] at he
      obtain ⟨hd, ht⟩ := List.cons.injEq .. ▸ he
      exact absurd (ht ▸ List.mem_append_right t₂ (List.mem_cons_self '.' b₂)) h1
  | cons c t₁ ih =>
    intro b₁ a₂ b₂ he h1 h2
    cases a₂ with
    | nil =>
      simp only [List.nil_append, List.cons_append] at he
      obtain ⟨hd, ht⟩ := List.cons.injEq .. ▸ he
      exact absurd (ht ▸ List.mem_append_right t₁ (List.mem_cons_self '.' b₁)) h2
    | cons d t₂ =>
      simp only [List.cons_append] at he
      obtain ⟨hd, ht⟩ := List.cons.injEq .. ▸ he
      obtain ⟨hA, hB⟩ := ih b₁ t₂ b₂ ht h1 h2
      exact ⟨by rw [hd, hA], hB⟩

theorem stem_append_suffix (n : Str) : pyStem n ++ pySuffix n = n := by
  rw [pyStem, pySuffix]
  cases hs : splitLastDot n with
  | none => simp
  | some ab =>
    obtain ⟨a, b⟩ := ab
    simp only []
    by_cases hcond : a ≠ [] ∧ b ≠ []
    · rw [if_pos hcond, if_pos hcond]
      exact ((splitLastDot_some hs).1).symm
    · rw [if_neg hcond, if_neg hcond, List.append_nil]
/-- C3 counterexample: for the dotfile name `.env` with empty prefix and
suffix `_x`, the code's new name keeps the whole name as the stem
(`.env_x`), while the claim's "split at the last dot" formula would give
`_x.env`; the two formulas disagree at this concrete input. -/
theorem claim3_cex :
    buildNewName ".env".toList [] "_x".toList ≠
      specBuildNewName ".env".toList [] "_x".toList ∧
    buildNewName ".env".toList [] "_x".toList = ".env_x".toList ∧
    specBuildNewName ".env".toList [] "_x".toList = "_x.env".toList := by
  refine ⟨by decide, by decide, by decide⟩

/-- C3 (amended): the Rename stage computes
`prefix ++ stem ++ suffix ++ extension`, where the extension starts at the
last dot of the filename only when that dot is neither the leading nor the
final character; otherwise the extension is empty and the whole name is the
stem (pathlib semantics).  The extension substring is preserved verbatim. -/
theorem claim3 (name pre suf : Str) :
    (∃ a b, name = a ++ '.' :: b ∧ a ≠ [] ∧ b ≠ [] ∧ '.' ∉ b ∧
      buildNewName name pre suf = pre ++ a ++ suf ++ ('.' :: b)) ∨
    ((¬ ∃ a b, name = a ++ '.' :: b ∧ a ≠ [] ∧ b ≠ [] ∧ '.' ∉ b) ∧
      buildNewName name pre suf = pre ++ name ++ suf) := by
  rw [buildNewName, pyStem, pySuffix]
  cases hs : splitLastDot name with
  | none =>
    refine Or.inr ⟨?_, by simp⟩
    rintro ⟨a, b, heq, -, -, -⟩
    exact splitLastDot_none hs
      (heq ▸ List.mem_append_right a (List.mem_cons_self '.' b))
  | some ab =>
    obtain ⟨a, b⟩ := ab
    simp only []
    obtain ⟨heq, hnb⟩ := splitLastDot_some hs
    by_cases hcond : a ≠ [] ∧ b ≠ []
    · exact Or.inl ⟨a, b, heq, hcond.1, hcond.2, hnb,
        by rw [if_pos hcond, if_pos hcond]⟩
    · refine Or.inr ⟨?_, by rw [if_neg hcond, if_neg hcond, List.append_nil]⟩
      rintro ⟨a', b', heq', ha', hb', hnb'⟩
      obtain ⟨hA, hB⟩ := lastDotUnique a b a' b' (heq.symm.trans heq') hnb hnb'
      rw [not_and_or, not_ne_iff, not_ne_iff] at hcond
      rcases hcond with h | h
      · exact ha' (hA ▸ h)
      · exact hb' (hB ▸ h)
theorem buildNewName_nil_nil (n : Str) : buildNewName n [] [] = n := by
  rw [buildNewName, List.nil_append, List.append_nil]
  exact stem_append_suffix n

theorem renameDest_nil_nil {p : PyPath} (hp : p ≠ []) : renameDest [] [] p = p := by
  rw [renameDest, buildNewName_nil_nil, withName, pathName,
    List.getLast?_eq_getLast p hp, Option.getD_some]
  exact List.dropLast_append_getLast hp

theorem fsRename_self {fs : FS} {p : PyPath} (h : fs p = true) :
    fsRename fs p p = fs := by
  funext q
  rw [fsRename]
  by_cases hq : q = p
  · rw [if_pos hq, hq, h]
  · rw [if_neg hq, if_neg hq]

/-- C9: renaming with empty prefix and empty suffix is an identity: when
every listed file exists (and has a name), the Rename stage succeeds on each
one, returns the identical paths in order, and leaves the filesystem
unchanged. -/
theorem claim9 :
    ∀ (fs : FS) (files : List PyPath), (∀ p ∈ files, p ≠ [] ∧ fs p = true) →
      renameFiles [] [] fs files = (fs, files) := by
  intro fs files
  induction files with
  | nil => intro _; rfl
  | cons p rest ih =>
    intro h
    obtain ⟨hp, hfs⟩ := h p (List.mem_cons_self p rest)
    rw [renameFiles, if_pos hfs, renameDest_nil_nil hp, fsRename_self hfs,
      ih (fun q hq => h q (List.mem_cons_of_mem p hq))]

/-- C9 witness at a concrete input: a one-element batch over a filesystem
where the file exists is returned unchanged. -/
theorem claim9_witness :
    renameFiles [] [] fsAll [["report.pdf".toList]] =
      (fsAll, [["report.pdf".toList]]) :=
  claim9 fsAll [["report.pdf".toList]] (by intro p hp; exact ⟨by simp at hp; simp [hp], rfl⟩)
theorem downloadFiles_sublist (rawN : Str → Str) (net : Str → Option (List Nat))
    (dir : PyPath) :
    ∀ urls : List Str, ∃ kept : List Str, List.Sublist kept urls ∧
      downloadFiles rawN net dir urls = kept.map (downloadDest rawN dir) := by
  intro urls
  induction urls with
  | nil => exact ⟨[], List.nil_sublist [], rfl⟩
  | cons u rest ih =>
    obtain ⟨kept, hsub, he⟩ := ih
    cases hn : net u with
    | none =>
      refine ⟨kept, hsub.cons u, ?_⟩
      rw [downloadFiles, downloadSingle, hn, he]
    | some body =>
      refine ⟨u :: kept, hsub.cons₂ u, ?_⟩
      rw [downloadFiles, downloadSingle, hn, List.map_cons, he]

theorem renameFiles_sublist (pre suf : Str) :
    ∀ (files : List PyPath) (fs : FS), ∃ kept : List PyPath, List.Sublist kept files ∧
      (renameFiles pre suf fs files).2 = kept.map (renameDest pre suf) := by
  intro files
  induction files with
  | nil => exact fun fs => ⟨[], List.nil_sublist [], rfl⟩
  | cons p rest ih =>
    intro fs
    cases hfs : fs p with
    | false =>
      obtain ⟨kept, hsub, he⟩ := ih fs
      refine ⟨kept, hsub.cons p, ?_⟩
      rw [renameFiles, if_neg (by simp [hfs]), he]
    | true =>
      obtain ⟨kept, hsub, he⟩ := ih (fsRename fs p (renameDest pre suf p))
      refine ⟨p :: kept, hsub.cons₂ p, ?_⟩
      rw [renameFiles, if_pos hfs, List.map_cons]
      exact congrArg _ he

theorem sortFiles_sublist (cfg : FileSortConfig) (base : PyPath) :
    ∀ (files : List PyPath) (fs : FS), ∃ kept : List PyPath, List.Sublist kept files ∧
      (sortFilesByExtension cfg base fs files).2 = kept.map (sortDest cfg base) := by
  intro files
  induction files with
  | nil => exact fun fs => ⟨[], List.nil_sublist [], rfl⟩
  | cons p rest ih =>
    intro fs
    cases hfs : fs p with
    | false =>
      obtain ⟨kept, hsub, he⟩ := ih fs
      refine ⟨kept, hsub.cons p, ?_⟩
      rw [sortFilesByExtension, if_neg (by simp [hfs]), he]
    | true =>
      obtain ⟨kept, hsub, he⟩ := ih (fsRename fs p (sortDest cfg base p))
      refine ⟨p :: kept, hsub.cons₂ p, ?_⟩
      rw [sortFilesByExtension, if_pos hfs, List.map_cons]
      exact congrArg _ he

/-- C1: each of the Fetch, Rename, and Sort stages returns at most as many
items as it was given; its output is, in order, the per-item results of a
sublist of its input (survivors are never reordered); and a per-item failure
(failed GET, missing file) only omits that item, leaving the processing of
the remaining items unchanged. -/
theorem claim1 :
    (∀ (rawN : Str → Str) (net : Str → Option (List Nat)) (dir : PyPath),
      (∀ urls, (downloadFiles rawN net dir urls).length ≤ urls.length ∧
        ∃ kept : List Str, List.Sublist kept urls ∧
          downloadFiles rawN net dir urls = kept.map (downloadDest rawN dir)) ∧
      (∀ u rest, net u = none →
        downloadFiles rawN net dir (u :: rest) = downloadFiles rawN net dir rest)) ∧
    (∀ (pre suf : Str) (fs : FS),
      (∀ files, (renameFiles pre suf fs files).2.length ≤ files.length ∧
        ∃ kept : List PyPath, List.Sublist kept files ∧
          (renameFiles pre suf fs files).2 = kept.map (renameDest pre suf)) ∧
      (∀ p rest, fs p = false →
        renameFiles pre suf fs (p :: rest) = renameFiles pre suf fs rest)) ∧
    (∀ (cfg : FileSortConfig) (base : PyPath) (fs : FS),
      (∀ files, (sortFilesByExtension cfg base fs files).2.length ≤ files.length ∧
        ∃ kept : List PyPath, List.Sublist kept files ∧
          (sortFilesByExtension cfg base fs files).2 = kept.map (sortDest cfg base)) ∧
      (∀ p rest, fs p = false →
        sortFilesByExtension cfg base fs (p :: rest) =
          sortFilesByExtension cfg base fs rest)) := by
  refine ⟨fun rawN net dir => ⟨fun urls => ?_, fun u rest hu => ?_⟩,
    fun pre suf fs => ⟨fun files => ?_, fun p rest hp => ?_⟩,
    fun cfg base fs => ⟨fun files => ?_, fun p rest hp => ?_⟩⟩
  · obtain ⟨kept, hsub, he⟩ := downloadFiles_sublist rawN net dir urls
    exact ⟨by rw [he, List.length_map]; exact hsub.length_le, kept, hsub, he⟩
  · rw [downloadFiles, downloadSingle, hu]
  · obtain ⟨kept, hsub, he⟩ := renameFiles_sublist pre suf files fs
    exact ⟨by rw [he, List.length_map]; exact hsub.length_le, kept, hsub, he⟩
  · rw [renameFiles, if_neg (by simp [hp])]
  · obtain ⟨kept, hsub, he⟩ := sortFiles_sublist cfg base files fs
    exact ⟨by rw [he, List.length_map]; exact hsub.length_le, kept, hsub, he⟩
  · rw [sortFilesByExtension, if_neg (by simp [hp])]

/-- C1 witness at concrete inputs: a failed URL and a missing file are
skipped without affecting the rest of their batches. -/
theorem claim1_witness :
    downloadFiles rawDemo netDemo [] ["bad".toList, "ok".toList] =
      downloadFiles rawDemo netDemo [] ["ok".toList] ∧
    renameFiles "x_".toList [] fsNone [["gone.txt".toList], ["a.txt".toList]] =
      renameFiles "x_".toList [] fsNone [["a.txt".toList]] ∧
    sortFilesByExtension FileSortConfig.default [] fsNone
        [["gone.txt".toList], ["a.txt".toList]] =
      sortFilesByExtension FileSortConfig.default [] fsNone [["a.txt".toList]] :=
  ⟨(claim1.1 rawDemo netDemo []).2 "bad".toList ["ok".toList] (by decide),
   (claim1.2.1 "x_".toList [] fsNone).2 ["gone.txt".toList] [["a.txt".toList]] rfl,
   (claim1.2.2 FileSortConfig.default [] fsNone).2 ["gone.txt".toList]
     [["a.txt".toList]] rfl⟩
theorem alookup_eq_none {α : Type} :
    ∀ (l : List (Str × α)) (k : Str), k ∉ l.map Prod.fst → alookup l k = none := by
  intro l
  induction l with
  | nil => intro k _; rfl
  | cons kv t ih =>
    intro k h
    obtain ⟨k', v⟩ := kv
    rw [List.map_cons, List.mem_cons, not_or] at h
    rw [alookup, if_neg (fun hk => h.1 hk.symm), ih k h.2]

/-- C2: the Sort stage's classification is a total, case-insensitive
function of the extension: extensions with the same lowering classify
identically; each of the fourteen default table entries maps to its fixed
category; the empty extension and every extension whose lowering is not a
table key map to the fallback category "others"; and every extension is
assigned exactly one category. -/
theorem claim2 :
    (∀ e₁ e₂ : Str, pyLower e₁ = pyLower e₂ →
      classifyExt FileSortConfig.default e₁ = classifyExt FileSortConfig.default e₂) ∧
    (∀ e : Str, ∃! c : Str, classifyExt FileSortConfig.default e = c) ∧
    (classifyExt FileSortConfig.default ".pdf".toList = "documents".toList ∧
     classifyExt FileSortConfig.default ".doc".toList = "documents".toList ∧
     classifyExt FileSortConfig.default ".docx".toList = "documents".toList ∧
     classifyExt FileSortConfig.default ".txt".toList = "documents".toList ∧
     classifyExt FileSortConfig.default ".csv".toList = "data".toList ∧
     classifyExt FileSortConfig.default ".xlsx".toList = "data".toList ∧
     classifyExt FileSortConfig.default ".xls".toList = "data".toList ∧
     classifyExt FileSortConfig.default ".jpg".toList = "images".toList ∧
     classifyExt FileSortConfig.default ".jpeg".toList = "images".toList ∧
     classifyExt FileSortConfig.default ".png".toList = "images".toList ∧
     classifyExt FileSortConfig.default ".gif".toList = "images".toList ∧
     classifyExt FileSortConfig.default ".mp4".toList = "videos".toList ∧
     classifyExt FileSortConfig.default ".mkv".toList = "videos".toList ∧
     classifyExt FileSortConfig.default ".mp3".toList = "audio".toList) ∧
    (classifyExt FileSortConfig.default [] = "others".toList) ∧
    (∀ e : Str, pyLower e ∉ FileSortConfig.default.extension_map.map Prod.fst →
      classifyExt FileSortConfig.default e = "others".toList) := by
  refine ⟨fun e₁ e₂ h => ?_, fun e => ⟨_, rfl, fun c hc => hc.symm⟩,
    by decide, by decide, fun e h => ?_⟩
  · rw [classifyExt, classifyExt, h]
  · rw [classifyExt, alookup_eq_none _ _ h]
    rfl

/-- C2 witness at concrete inputs: `.JPG` classifies like `.jpg`, and an
unknown extension falls back to "others". -/
theorem claim2_witness :
    classifyExt FileSortConfig.default ".JPG".toList =
      classifyExt FileSortConfig.default ".jpg".toList ∧
    classifyExt FileSortConfig.default ".xyz".toList = "others".toList :=
  ⟨claim2.1 ".JPG".toList ".jpg".toList (by decide),
   claim2.2.2.2.2 ".xyz".toList (by decide)⟩
/-- C4: the generated report is exactly one header row
(`file_name, extension, size_bytes, folder`) followed by one row per input
file in input order; the report for the empty list is exactly the header
row. -/
theorem claim4 :
    ∀ (stat : PyPath → Option Nat) (files : List PyPath),
      generateFileReport stat [] = [headerRow] ∧
      headerRow = ["file_name".toList, "extension".toList,
        "size_bytes".toList, "folder".toList] ∧
      (generateFileReport stat files).length = files.length + 1 ∧
      (generateFileReport stat files)[0]? = some headerRow ∧
      ∀ i : Nat, (generateFileReport stat files)[i + 1]? =
        (files[i]?).map (fileRow stat) := by
  intro stat files
  refine ⟨rfl, rfl, ?_, ?_, fun i => ?_⟩
  · rw [generateFileReport, List.length_cons, List.length_map]
  · rw [generateFileReport, List.getElem?_cons_zero]
  · rw [generateFileReport, List.getElem?_cons_succ, List.getElem?_map]

/-- C5: a file whose size cannot be measured (its stat is `none`, the
model of `FileNotFoundError` for a file missing at measurement time) still
gets its row, with `size_bytes` rendered as `0`, and the report is still
completed with one row per input plus the header. -/
theorem claim5 :
    ∀ (stat : PyPath → Option Nat) (files : List PyPath) (i : Nat) (p : PyPath),
      files[i]? = some p → stat p = none →
      (generateFileReport stat files).length = files.length + 1 ∧
      (generateFileReport stat files)[i + 1]? =
        some [pathName p, fileExt p, "0".toList, parentName p] := by
  intro stat files i p hi hstat
  refine ⟨(claim4 stat files).2.2.1, ?_⟩
  rw [(claim4 stat files).2.2.2.2 i, hi, Option.map_some', fileRow, sizeBytes,
    hstat, Option.getD_none]
  rfl

/-- C5 witness at a concrete input: a report over one unmeasurable file has
a header plus the file's row with size cell `0`. -/
theorem claim5_witness :
    (generateFileReport statNone [["gone.txt".toList]]).length = 2 ∧
    (generateFileReport statNone [["gone.txt".toList]])[1]? =
      some ["gone.txt".toList, ".txt".toList, "0".toList, []] := by
  have h := claim5 statNone [["gone.txt".toList]] 0 ["gone.txt".toList] rfl rfl
  exact ⟨h.1, by rw [h.2]; decide⟩
/-- C6: a missing settings file or a file that is not valid JSON both yield
the complete built-in default configuration (empty URL list,
`sort_by_extension = true`, email disabled); BUT a configuration document
that parses to valid JSON that is not an object (here `[]`) makes
`load_config` raise `AttributeError` (`data.get` on a list) instead of
falling back — the exception escapes, contradicting the claim and the
function's own docstring. -/
theorem claim6 :
    ∀ b : Str,
      loadConfig b .missing = .ok (Config.default b) ∧
      loadConfig b .unparseable = .ok (Config.default b) ∧
      (Config.default b).download_urls = Json.jarr [] ∧
      (Config.default b).sort_by_extension = Json.jbool true ∧
      (Config.default b).email.enabled = Json.jbool false ∧
      loadConfig b (.parsed (Json.jarr [])) = .error PyErr.attributeError := by
  intro b
  exact ⟨rfl, rfl, rfl, rfl, rfl, rfl⟩

/-- C8: when email is disabled, or the recipient list is empty, the
Notification stage performs no network action at all and returns normally,
for every subject, body, attachment, filesystem, and transport. -/
theorem claim8 :
    ∀ (cfg : EmailConfig) (subject body : Str) (attachment : Option PyPath)
      (fs : PyPath → Bool) (w : SmtpWorld),
      cfg.enabled = false ∨ cfg.to_addresses = [] →
      send_notification cfg subject body attachment fs w =
        (.ok (), ([] : List NetAction)) := by
  intro cfg subject body attachment fs w h
  rcases h with h | h
  · rw [send_notification, if_pos h]
  · rw [send_notification]
    by_cases he : cfg.enabled = false
    · rw [if_pos he]
    · rw [if_neg he, if_pos h]

/-- C8 witness at a concrete input: with disabled settings the call returns
normally with an empty network trace, even against a failing transport. -/
theorem claim8_witness :
    send_notification cfgOff "s".toList "b".toList none fsNone wFail =
      (.ok (), ([] : List NetAction)) :=
  claim8 cfgOff "s".toList "b".toList none fsNone wFail (Or.inl rfl)

/-- C7 counterexample: with email enabled and a recipient configured, a
subject containing a newline makes the header assignment
(`msg["Subject"] = subject`, which runs before the `try` block) raise
`ValueError`, and `send_notification` propagates the exception instead of
returning normally — a message-composition error is NOT caught. -/
theorem claim7_cex :
    (send_notification cfgOn "a\nb".toList "body".toList none fsNone wOk).1 =
      .error PyErr.valueError := by
  rfl

/-- C7 (amended): whenever message composition succeeds, the call returns
normally for every attachment, filesystem, and transport — every transport,
authentication, or send error arising inside the SMTP session is caught.
Message-composition errors (header values containing CR or LF) occur before
the guarded region and propagate to the caller. -/
theorem claim7 :
    ∀ (cfg : EmailConfig) (subject body : Str) (attachment : Option PyPath)
      (fs : PyPath → Bool) (w : SmtpWorld) (m : EmailMsg),
      composeMessage subject body cfg.from_address cfg.to_addresses = .ok m →
      (send_notification cfg subject body attachment fs w).1 = .ok () := by
  intro cfg subject body attachment fs w m hm
  rw [send_notification]
  by_cases he : cfg.enabled = false
  · rw [if_pos he]
  · rw [if_neg he]
    by_cases ht : cfg.to_addresses = []
    · rw [if_pos ht]
    · rw [if_neg ht, hm]

/-- C7 witness at a concrete input: with composition succeeding, the call
returns normally even though every SMTP operation fails. -/
theorem claim7_witness :
    (send_notification cfgOn "s".toList "b".toList none fsNone wFail).1 =
      .ok () :=
  claim7 cfgOn "s".toList "b".toList none fsNone wFail
    { subject := "s".toList, fromAddr := "bot@example.com".toList,
      toHdr := "ops@example.com".toList, body := "b".toList,
      attachmentName := none } (by rfl)
theorem pyBindOk {α β : Type} (a : α) (f : α → Except PyErr β) :
    (Except.ok a >>= f) = f a := rfl

theorem jsonGet_obj (kvs : List (Str × Json)) (k : Str) (d : Json) :
    jsonGet (Json.jobj kvs) k d = Except.ok ((alookup kvs k).getD d) := rfl

theorem getPathD_merge {kvs : List (Str × Json)} {k : Str} (d : Str)
    (h : alookup kvs k = none ∨ ∃ s, alookup kvs k = some (Json.jstr s)) :
    getPathD (Json.jobj kvs) k d = Except.ok (pathMerge (alookup kvs k) d) := by
  rcases h with h | ⟨s, h⟩ <;>
    simp [getPathD, jsonGet, h, pathMerge, pyBindOk]

/-- C10: for a configuration document that is a JSON object (whose `email`
value, when present, is an object, and whose directory values, when
present, are strings so that `Path(...)` accepts them), `load_config`
merges the document with the defaults key by key: every present key takes
its document value and every absent key — including keys absent inside the
`email` section — independently takes its built-in default. -/
theorem claim10 (b : Str) (kvs : List (Str × Json))
    (hdl : alookup kvs "download_dir".toList = none ∨
      ∃ s, alookup kvs "download_dir".toList = some (Json.jstr s))
    (hwk : alookup kvs "working_dir".toList = none ∨
      ∃ s, alookup kvs "working_dir".toList = some (Json.jstr s))
    (hrp : alookup kvs "reports_dir".toList = none ∨
      ∃ s, alookup kvs "reports_dir".toList = some (Json.jstr s))
    (hlg : alookup kvs "logs_dir".toList = none ∨
      ∃ s, alookup kvs "logs_dir".toList = some (Json.jstr s))
    (hem : alookup kvs "email".toList = none ∨
      ∃ ekvs, alookup kvs "email".toList = some (Json.jobj ekvs)) :
    loadConfig b (.parsed (.jobj kvs)) = .ok (specMergedConfig b kvs) := by
  have e1 := getPathD_merge (joinPath b "downloads".toList) hdl
  have e2 := getPathD_merge (joinPath b "downloads".toList) hwk
  have e3 := getPathD_merge (joinPath b "reports".toList) hrp
  have e4 := getPathD_merge (joinPath b "logs".toList) hlg
  show loadConfigData b (.jobj kvs) = .ok (specMergedConfig b kvs)
  rcases hem with hem | ⟨ekvs, hem⟩ <;>
    simp only [loadConfigData, jsonGet_obj, hem, e1, e2, e3, e4, pyBindOk,
      Option.getD_none, Option.getD_some, specMergedConfig, emailMerge,
      EmailRaw.default, alookup]

/-- C10 witness at a concrete partial document: present keys
(`rename_prefix`, `download_dir`, `email.enabled`) take their document
values and absent keys (e.g. `sort_by_extension`) take their defaults. -/
theorem claim10_witness :
    loadConfig "base".toList (.parsed (.jobj demoKvs)) =
      .ok (specMergedConfig "base".toList demoKvs) ∧
    (specMergedConfig "base".toList demoKvs).renamePre = Json.jstr "x_".toList ∧
    (specMergedConfig "base".toList demoKvs).download_dir = "/data".toList ∧
    (specMergedConfig "base".toList demoKvs).email.enabled = Json.jbool true ∧
    (specMergedConfig "base".toList demoKvs).sort_by_extension = Json.jbool true :=
  ⟨claim10 "base".toList demoKvs
     (Or.inr ⟨"/data".toList, rfl⟩) (Or.inl rfl) (Or.inl rfl) (Or.inl rfl)
     (Or.inr ⟨[("enabled".toList, Json.jbool true)], rfl⟩),
   rfl, rfl, rfl, rfl⟩
